import Mathlib

/-
Verification of the binding and result-adaptation layer in
include/tfrt/core_runtime/op_utils.h.

The embedding models the two binders (MetadataFnImpl, DispatchFnImpl), their
recursive call helpers (the parameter classifier) and the shared result
adapter (HandleReturn overloads).  Compile-time template state
(arg_idx, result_idx, md_idx, has_attrs, has_chain) is carried explicitly;
static_assert failures are modelled as a static walk returning none, and
runtime assert failures as the runtime walk returning none.  The C++ sentinel
value arg_idx == -1 is modelled by Option.none.  AsyncValue cells live in a
heap (a list indexed by cell id), which makes object identity expressible:
two result slots hold the same Error object exactly when they hold the same
cell id.
-/

namespace OpUtils

/-- A call-site location token (tfrt::Location); opaque, cheaply copyable. -/
structure Location where
  id : Nat
deriving DecidableEq, Repr

/-- Payload of a concrete result value; opaque to the adapter. -/
abbrev Val := Nat

/-- State of an AsyncValue cell: pending, resolved to a concrete value, or
resolved to an error carrying a message and an optional stamped Location. -/
inductive CellState where
  | pending
  | concrete (v : Val)
  | error (msg : String) (eloc : Option Location)
deriving DecidableEq, Repr

/-- The host-side state the adapter touches: the heap of AsyncValue cells
(cell id is the list index), the continuations registered through AndThen by
the result adapter (cell id paired with the captured Location), and the
process-wide error sink (each report records the error message and the
location stored on the error at report time). -/
structure Host where
  cells : List CellState
  conts : List (Nat × Location)
  sink : List (String × Option Location)
deriving DecidableEq, Repr

/-- Modelled from the spec: HostContext::MakeConcreteAsyncValueRef, the
factory that wraps a concrete value as a newly created resolved asynchronous
cell (spec section 6).  Returns the fresh cell id and the updated host. -/
def Host.makeConcrete (h : Host) (v : Val) : Nat × Host :=
  (h.cells.length, { h with cells := h.cells ++ [CellState.concrete v] })

/-- Modelled from the spec: Location::EmitErrorAsync, which converts an
operation-level failure into one Error object stamped with the call Location
(spec section 7).  Returns the fresh error cell id and the updated host. -/
def Host.emitErrorAsync (h : Host) (loc : Location) (msg : String) :
    Nat × Host :=
  (h.cells.length, { h with cells := h.cells ++ [CellState.error msg (some loc)] })

/-- The body of the continuation registered by the dispatch HandleReturn for
a type-erased async result (op_utils.h lines 418 to 423): if the cell
resolved to an error, stamp the Location only if it is unset and report the
error to the host error sink.  SetErrorLocationIfUnset and EmitError are
modelled from the spec: an Error once stamped with a Location is never
re-stamped (section 3), and the host provides a process-wide error sink
(section 6). -/
def runErrCont (h : Host) (t : Nat) (loc : Location) : Host :=
  match h.cells[t]? with
  | some (CellState.error msg el) =>
      let el2 := match el with
        | none => some loc
        | some l => some l
      { h with cells := h.cells.set t (CellState.error msg el2),
               sink := h.sink ++ [(msg, el2)] }
  | _ => h

/-- Modelled from the spec: AsyncValue::AndThen registers a continuation that
is invoked exactly once upon resolution (section 3); a continuation
registered on an already resolved cell still runs (section 5).  The only
continuation the adapter registers is runErrCont, so registration records
the cell id and the captured Location. -/
def Host.andThen (h : Host) (t : Nat) (loc : Location) : Host :=
  match h.cells[t]? with
  | some CellState.pending => { h with conts := h.conts ++ [(t, loc)] }
  | some _ => runErrCont h t loc
  | none => h

/-- Modelled from the spec: resolving a pending cell to an error (the
upstream producer writing the write-once cell) runs each registered
continuation exactly once (sections 3 and 5). -/
def Host.resolveError (h : Host) (t : Nat) (msg : String)
    (el : Option Location) : Host :=
  match h.cells[t]? with
  | some CellState.pending =>
      let fired := h.conts.filter (fun c => c.1 == t)
      let h1 : Host :=
        { h with cells := h.cells.set t (CellState.error msg el),
                 conts := h.conts.filter (fun c => c.1 != t) }
      fired.foldl (fun acc c => runErrCont acc t c.2) h1
  | _ => h

/-! Dispatch binder: parameter kinds and classifier state. -/

/-- Parameter kinds accepted by DispatchFnCallHelper, one per template
specialization (op_utils.h lines 471 to 791). -/
inductive DParam where
  | attrs
  | resultMd
  | resultSlot
  | outChain
  | location
  | hostCtx
  | deviceCtx
  | tensorPtr
  | tensorRef
  | argument
  | optionalArg
  | repeatedArgs
deriving DecidableEq, Repr

/-- Template state of the classifier walk: arg_idx (none models the C++
sentinel -1 set by optional and variadic arguments), result_idx, md_idx
and the two seen flags. -/
structure SState where
  argIdx : Option Nat
  resultIdx : Nat
  mdIdx : Nat
  hasAttrs : Bool
  hasChain : Bool
deriving DecidableEq, Repr

/-- Initial template state of DispatchFnImpl::Invoke (line 336): all
cursors 0, no flags. -/
def initS : SState :=
  { argIdx := some 0, resultIdx := 0, mdIdx := 0,
    hasAttrs := false, hasChain := false }

/-- The conjunction of the static_assert conditions of the
DispatchFnCallHelper specialization for one parameter kind. -/
def sGuard : DParam → SState → Bool
  | .attrs, s =>
      !s.hasAttrs && !s.hasChain && s.resultIdx == 0 && s.mdIdx == 0
  | .resultMd, s => s.resultIdx == 0 && !s.hasChain
  | .resultSlot, s => !s.hasChain
  | .outChain, s => !s.hasChain
  | .location, _ => true
  | .hostCtx, _ => true
  | .deviceCtx, _ => true
  | .tensorPtr, s | .tensorRef, s | .argument, s =>
      -- the positional tensor specializations carry no arg_idx static_assert
      -- (lines 625 to 633): an exhausted cursor is only caught at run time
      !s.hasChain && !s.hasAttrs && s.resultIdx == 0 && s.mdIdx == 0
  | .optionalArg, s | .repeatedArgs, s =>
      s.argIdx.isSome && !s.hasChain && !s.hasAttrs &&
        s.resultIdx == 0 && s.mdIdx == 0

/-- The template-state update performed by the recursive Invoke call of the
specialization for one parameter kind. -/
def sUpd : DParam → SState → SState
  | .attrs, s => { s with hasAttrs := true }
  | .resultMd, s => { s with mdIdx := s.mdIdx + 1 }
  | .resultSlot, s => { s with resultIdx := s.resultIdx + 1 }
  | .outChain, s => { s with hasChain := true }
  | .location, s => s
  | .hostCtx, s => s
  | .deviceCtx, s => s
  | .tensorPtr, s | .tensorRef, s | .argument, s =>
      -- the recursion passes arg_idx + 1 (lines 638, 669, 701); as the int
      -- arithmetic turns the -1 sentinel into 0, an exhausted cursor is
      -- reset at compile time (only the runtime assert catches it)
      { s with argIdx := some (match s.argIdx with
          | some k => k + 1
          | none => 0) }
  | .optionalArg, s | .repeatedArgs, s => { s with argIdx := none }

/-- One static (compile-time) step of the dispatch classifier: the
static_assert conditions must hold, then the template state advances. -/
def dStaticStep (p : DParam) (s : SState) : Option SState :=
  if sGuard p s then some (sUpd p s) else none

/-- The full static walk of DispatchFnCallHelper over a parameter list. -/
def dStaticWalk : List DParam → SState → Option SState
  | [], s => some s
  | p :: ps, s => (dStaticStep p s).bind (dStaticWalk ps)

/-- Compile-time return shape of a dispatch function. -/
inductive DReturnTy where
  | tvoid
  | tval
  | tchain
  | tasync
  | trcref
  | texpected (t : DReturnTy)
  | ttuple (n : Nat)
deriving DecidableEq, Repr

/-- The static_assert conditions of the HandleReturn overload selected by the
return shape (and of DispatchReturnHelper), given the final result_idx and
has_chain template state.  The Expected overload instantiates the overload
for its payload type in the success branch, so that check is inherited. -/
def retStaticOk : DReturnTy → Nat → Bool → Bool
  | .tvoid, _, _ => true
  | .tval, rIdx, _ => rIdx == 0
  | .tchain, _, hasChain => !hasChain
  | .tasync, rIdx, _ => rIdx == 0
  | .trcref, rIdx, _ => rIdx == 0
  | .texpected t, rIdx, hasChain => rIdx == 0 && retStaticOk t rIdx hasChain
  | .ttuple _, _, _ => true

/-- Whether the whole dispatch function shape compiles: the classifier walk
passes all static_assert checks and the return shape passes its own. -/
def dispatchStaticOk (ps : List DParam) (rt : DReturnTy) : Bool :=
  match dStaticWalk ps initS with
  | some s => retStaticOk rt s.resultIdx s.hasChain
  | none => false

/-! Dispatch binder: runtime walk. -/

/-- A value bound to one parameter of the underlying function during the
walk.  Input-consuming parameters record the frame entries they bound. -/
inductive BoundArg where
  | tensor (t : Nat)
  | optTensor (t : Option Nat)
  | repeated (ts : List Nat)
  | attrsArg
  | mdArg (m : Nat)
  | slotArg (i : Nat)
  | chainArg
  | locArg
  | hostArg
  | deviceArg
deriving DecidableEq, Repr

/-- One runtime step of the dispatch classifier over the call frame: the
assert statements of each specialization become the none branches.  frame is
the positional input sequence (dispatch: AsyncValue pointers, modelled by
their cell ids), mds the precomputed output metadata, nSlots the declared
result-slot count. -/
def dRunStep (frame mds : List Nat) (nSlots : Nat) (p : DParam)
    (s : SState) (b : List BoundArg) : Option (SState × List BoundArg) :=
  match p with
  | .attrs => some ({ s with hasAttrs := true }, b ++ [.attrsArg])
  | .resultMd =>
      -- assert(md_idx < result_mds.size()), line 509
      match mds[s.mdIdx]? with
      | some m => some ({ s with mdIdx := s.mdIdx + 1 }, b ++ [.mdArg m])
      | none => none
  | .resultSlot =>
      -- assert(result_idx < results.size()), line 531
      if s.resultIdx < nSlots then
        some ({ s with resultIdx := s.resultIdx + 1 }, b ++ [.slotArg s.resultIdx])
      else none
  | .outChain => some ({ s with hasChain := true }, b ++ [.chainArg])
  | .location => some (s, b ++ [.locArg])
  | .hostCtx => some (s, b ++ [.hostArg])
  | .deviceCtx => some (s, b ++ [.deviceArg])
  | .tensorPtr | .tensorRef | .argument =>
      match s.argIdx with
      | some k =>
          -- assert(arg_idx < arguments.size()), lines 634, 665, 696
          match frame[k]? with
          | some a => some ({ s with argIdx := some (k + 1) }, b ++ [.tensor a])
          | none => none
      | none => none
  | .optionalArg =>
      match s.argIdx with
      | some k =>
          -- assert(arg_idx == arguments.size() - 1 ||
          --        arg_idx == arguments.size()), line 736
          if k + 1 = frame.length then
            match frame[k]? with
            | some a => some ({ s with argIdx := none }, b ++ [.optTensor (some a)])
            | none => none
          else if k = frame.length then
            some ({ s with argIdx := none }, b ++ [.optTensor none])
          else none
      | none => none
  | .repeatedArgs =>
      match s.argIdx with
      | some k =>
          -- assert(arg_idx <= arguments.size()), line 784
          if k ≤ frame.length then
            some ({ s with argIdx := none }, b ++ [.repeated (frame.drop k)])
          else none
      | none => none

/-- The runtime walk of DispatchFnCallHelper over the whole parameter list. -/
def dRunWalk (frame mds : List Nat) (nSlots : Nat) :
    List DParam → SState → List BoundArg → Option (SState × List BoundArg)
  | [], s, b => some (s, b)
  | p :: ps, s, b =>
      match dRunStep frame mds nSlots p s b with
      | some (s2, b2) => dRunWalk frame mds nSlots ps s2 b2
      | none => none

/-- The assert statements of the DispatchFnCallHelper base case (lines 805
to 808): input consumption reached exactly the end of the frame or was
terminated by an optional or variadic argument, and likewise for the
metadata cursor. -/
def dBaseOk (frame mds : List Nat) (s : SState) : Bool :=
  (s.argIdx == some frame.length || s.argIdx == none) &&
    (s.mdIdx == mds.length || s.mdIdx == 0)

/-! Dispatch binder: result adapter. -/

/-- Runtime return value of a dispatch function.  rok and rerr are the two
states of an llvm::Expected return; rtuple carries the tuple elements of a
std::tuple return of concrete values. -/
inductive DRet where
  | rvoid
  | rval (v : Val)
  | rchain (c : Nat)
  | rasync (t : Nat)
  | rrcref (t : Nat)
  | rok (inner : DRet)
  | rerr (msg : String)
  | rtuple (vs : List Val)
deriving DecidableEq, Repr

/-- Assignment of one result slot, with the MutableArrayRef bounds assert. -/
def setSlot (results : List (Option Nat)) (i t : Nat) :
    Option (List (Option Nat)) :=
  if i < results.length then some (results.set i (some t)) else none

/-- EmplaceTupleResult (lines 459 to 469): store the tuple elements in
sequence, each wrapped through MakeConcreteAsyncValueRef into the result
slot of its own index. -/
def emplaceTupleResult (h : Host) (results : List (Option Nat)) (i : Nat) :
    List Val → Option (Host × List (Option Nat))
  | [] => some (h, results)
  | v :: vs =>
      let p := h.makeConcrete v
      match setSlot results i p.1 with
      | some r2 => emplaceTupleResult p.2 r2 (i + 1) vs
      | none => none

/-- The loop of the Expected failure branch (lines 438 to 441): results[0]
receives the emitted error and every further slot receives a CopyRef of the
same object, so every slot holds the same cell id.  An empty slot array
makes the results[0] access trip the ArrayRef bounds assert. -/
def fillAllSlots (results : List (Option Nat)) (e : Nat) :
    Option (List (Option Nat)) :=
  if results.length = 0 then none
  else some (results.map (fun _ => some e))

/-- The dispatch-side HandleReturn overloads and DispatchReturnHelper
(lines 352 to 455), merged on the runtime return value.  Takes the final
result_idx of the walk, the call Location, the host, the result-slot array
and the chain; returns none on a runtime assert failure. -/
def handleReturn (loc : Location) (rIdx : Nat) (h : Host)
    (results : List (Option Nat)) (chain : Option Nat) :
    DRet → Option (Host × List (Option Nat) × Option Nat)
  | .rvoid =>
      -- assert(result_idx == results.size()), lines 368 to 369
      if rIdx = results.length then some (h, results, chain) else none
  | .rval v =>
      -- assert(results.size() == 1), line 381; results[0] wraps the value
      if results.length = 1 then
        let p := h.makeConcrete v
        (setSlot results 0 p.1).map (fun r2 => (p.2, r2, chain))
      else none
  | .rchain c =>
      -- assert(result_idx == results.size()), lines 393 to 394
      if rIdx = results.length then some (h, results, some c) else none
  | .rasync t =>
      -- assert(results.size() == 1), line 405; moved into results[0]
      if results.length = 1 then
        (setSlot results 0 t).map (fun r2 => (h, r2, chain))
      else none
  | .rrcref t =>
      -- assert(results.size() == 1), line 416; AndThen registers the
      -- error-reporting continuation, then the handle moves into results[0]
      if results.length = 1 then
        let h2 := h.andThen t loc
        (setSlot results 0 t).map (fun r2 => (h2, r2, chain))
      else none
  | .rok inner => handleReturn loc rIdx h results chain inner
  | .rerr msg =>
      let p := h.emitErrorAsync loc msg
      (fillAllSlots results p.1).map (fun r2 => (p.2, r2, chain))
  | .rtuple vs =>
      -- assert(results.size() == sizeof...(T)), lines 451 to 452
      if results.length = vs.length then
        (emplaceTupleResult h results 0 vs).map (fun q => (q.1, q.2, chain))
      else none

/-- DispatchFnImpl::Invoke (lines 330 to 338): run the classifier walk over
the parameter list, check the base-case asserts, then route the return
value of the underlying function through the result adapter.  The result
slots start empty (null RCReference) and the chain starts unset. -/
def dispatchInvoke (ps : List DParam) (ret : DRet) (frame mds : List Nat)
    (nSlots : Nat) (loc : Location) (h : Host) :
    Option (List BoundArg × Host × List (Option Nat) × Option Nat) :=
  match dRunWalk frame mds nSlots ps initS [] with
  | some (s, b) =>
      if dBaseOk frame mds s then
        (handleReturn loc s.resultIdx h (List.replicate nSlots none) none ret).map
          (fun o => (b, o))
      else none
  | none => none

/-! Metadata binder. -/

/-- Parameter kinds accepted by MetadataFnCallHelper, one per template
specialization (op_utils.h lines 171 to 303). -/
inductive MParam where
  | tensorMdArg
  | optionalArg
  | variadicArg
  | attrs
  | resultMd
  | location
deriving DecidableEq, Repr

/-- Template state of the metadata classifier walk (arg_idx with none for
the -1 sentinel, result_idx, has_attrs). -/
structure MSState where
  argIdx : Option Nat
  resultIdx : Nat
  hasAttrs : Bool
deriving DecidableEq, Repr

/-- Initial template state of MetadataFnImpl::Invoke (line 113). -/
def mInitS : MSState := { argIdx := some 0, resultIdx := 0, hasAttrs := false }

/-- The static_assert conditions of the MetadataFnCallHelper specialization
for one parameter kind.  The TensorMetadata result specialization has no
static_assert of its own. -/
def mGuard : MParam → MSState → Bool
  | .tensorMdArg, s => s.argIdx.isSome && !s.hasAttrs && s.resultIdx == 0
  | .optionalArg, s | .variadicArg, s =>
      s.argIdx.isSome && !s.hasAttrs && s.resultIdx == 0
  | .attrs, s => !s.hasAttrs && s.resultIdx == 0
  | .resultMd, _ => true
  | .location, _ => true

/-- The template-state update of the metadata classifier for one kind. -/
def mUpd : MParam → MSState → MSState
  | .tensorMdArg, s => { s with argIdx := s.argIdx.map (· + 1) }
  | .optionalArg, s | .variadicArg, s => { s with argIdx := none }
  | .attrs, s => { s with hasAttrs := true }
  | .resultMd, s => { s with resultIdx := s.resultIdx + 1 }
  | .location, s => s

/-- One static step of the metadata classifier. -/
def mStaticStep (p : MParam) (s : MSState) : Option MSState :=
  if mGuard p s then some (mUpd p s) else none

/-- The full static walk of MetadataFnCallHelper. -/
def mStaticWalk : List MParam → MSState → Option MSState
  | [], s => some s
  | p :: ps, s => (mStaticStep p s).bind (mStaticWalk ps)

/-- One runtime step of the metadata classifier over the metadata input
frame (args, plain TensorMetadata records modelled as Nat) and the declared
result count. -/
def mRunStep (args : List Nat) (nRes : Nat) (p : MParam)
    (s : MSState) (b : List BoundArg) : Option (MSState × List BoundArg) :=
  match p with
  | .tensorMdArg =>
      match s.argIdx with
      | some k =>
          -- assert(arg_idx < arguments.size()), line 188
          match args[k]? with
          | some a => some ({ s with argIdx := some (k + 1) }, b ++ [.tensor a])
          | none => none
      | none => none
  | .optionalArg =>
      match s.argIdx with
      | some k =>
          -- assert(arg_idx == arguments.size() - 1 ||
          --        arg_idx == arguments.size()), line 214
          if k + 1 = args.length then
            match args[k]? with
            | some a => some ({ s with argIdx := none }, b ++ [.optTensor (some a)])
            | none => none
          else if k = args.length then
            some ({ s with argIdx := none }, b ++ [.optTensor none])
          else none
      | none => none
  | .variadicArg =>
      match s.argIdx with
      | some k =>
          -- assert(arg_idx <= arguments.size()), line 246
          if k ≤ args.length then
            some ({ s with argIdx := none }, b ++ [.repeated (args.drop k)])
          else none
      | none => none
  | .attrs => some ({ s with hasAttrs := true }, b ++ [.attrsArg])
  | .resultMd =>
      -- assert(result_idx < results.size()), line 282
      if s.resultIdx < nRes then
        some ({ s with resultIdx := s.resultIdx + 1 }, b ++ [.slotArg s.resultIdx])
      else none
  | .location => some (s, b ++ [.locArg])

/-- The runtime walk of MetadataFnCallHelper over the parameter list. -/
def mRunWalk (args : List Nat) (nRes : Nat) :
    List MParam → MSState → List BoundArg → Option (MSState × List BoundArg)
  | [], s, b => some (s, b)
  | p :: ps, s, b =>
      match mRunStep args nRes p s b with
      | some (s2, b2) => mRunWalk args nRes ps s2 b2
      | none => none

/-- The assert statements of the MetadataFnCallHelper base case (lines 314
to 317). -/
def mBaseOk (args : List Nat) (nRes : Nat) (s : MSState) : Bool :=
  (s.argIdx == some args.length || s.argIdx == none) &&
    (s.resultIdx == nRes || s.resultIdx == 0)

/-- Runtime return value of a metadata function: an RCReference returned
directly (none models the null handle written as empty braces), an Expected
in either state, a single TensorMetadata, or a tuple of them. -/
inductive MRet where
  | rasync (r : Option Nat)
  | rok (inner : MRet)
  | rerr (msg : String)
  | rmd (m : Nat)
  | rtuple (ms : List Nat)
deriving DecidableEq, Repr

/-- The metadata EmplaceTupleResult (lines 157 to 163): assign the tuple
elements to the result records in sequence. -/
def mEmplaceTupleResult (results : List (Option Nat)) (i : Nat) :
    List Nat → Option (List (Option Nat))
  | [] => some results
  | m :: ms =>
      match setSlot results i m with
      | some r2 => mEmplaceTupleResult r2 (i + 1) ms
      | none => none

/-- The metadata-side HandleReturn overloads (lines 119 to 153): the
returned async handle passes through; an Expected failure becomes an error
async value via EmitErrorAsync; a single TensorMetadata requires exactly one
result record and is assigned to results[0]; a tuple requires matching
counts and is assigned in declared order.  Returns the updated host, the
result records and the RCReference the binder returns to its caller. -/
def mHandleReturn (loc : Location) (h : Host) (results : List (Option Nat)) :
    MRet → Option (Host × List (Option Nat) × Option Nat)
  | .rasync r => some (h, results, r)
  | .rok inner => mHandleReturn loc h results inner
  | .rerr msg =>
      let p := h.emitErrorAsync loc msg
      some (p.2, results, some p.1)
  | .rmd m =>
      -- assert(results.size() == 1), line 139
      if results.length = 1 then
        (setSlot results 0 m).map (fun r2 => (h, r2, none))
      else none
  | .rtuple ms =>
      -- assert(results.size() == sizeof...(T)), lines 148 to 149
      if results.length = ms.length then
        (mEmplaceTupleResult results 0 ms).map (fun r2 => (h, r2, none))
      else none

/-- MetadataFnImpl::Invoke (lines 108 to 116): run the metadata classifier
walk, check the base-case asserts, then route the return value through the
metadata result adapter. -/
def metadataInvoke (ps : List MParam) (ret : MRet) (args : List Nat)
    (nRes : Nat) (loc : Location) (h : Host) :
    Option (List BoundArg × Host × List (Option Nat) × Option Nat) :=
  match mRunWalk args nRes ps mInitS [] with
  | some (s, b) =>
      if mBaseOk args nRes s then
        (mHandleReturn loc h (List.replicate nRes none) ret).map
          (fun o => (b, o))
      else none
  | none => none

/-! Derived notions used by the statements. -/

/-- The frame entries bound by one parameter binding, in binding order. -/
def inputsOfArg : BoundArg → List Nat
  | .tensor t => [t]
  | .optTensor (some t) => [t]
  | .optTensor none => []
  | .repeated ts => ts
  | _ => []

/-- All frame entries consumed across a list of parameter bindings, in
order. -/
def inputsOf (b : List BoundArg) : List Nat :=
  b.flatMap inputsOfArg

/-- The unconsumed tail of the input frame at a given classifier state:
everything from the arg cursor on, or nothing once an optional or variadic
parameter terminated input consumption. -/
def remaining (frame : List Nat) (s : SState) : List Nat :=
  match s.argIdx with
  | some j => frame.drop j
  | none => []

/-- Metadata-binder version of remaining. -/
def mRemaining (args : List Nat) (s : MSState) : List Nat :=
  match s.argIdx with
  | some j => args.drop j
  | none => []

/-- Number of result-slot parameters in a dispatch parameter list. -/
def countSlotParams : List DParam → Nat
  | [] => 0
  | .resultSlot :: ps => countSlotParams ps + 1
  | _ :: ps => countSlotParams ps

/-- Whether a dispatch parameter kind consumes input-frame entries. -/
def isInputKind : DParam → Bool
  | .tensorPtr | .tensorRef | .argument | .optionalArg | .repeatedArgs => true
  | _ => false

/-- Whether a dispatch parameter kind is a positional tensor input (the
kinds whose static step resets an exhausted cursor instead of rejecting). -/
def isPosTensorKind : DParam → Bool
  | .tensorPtr | .tensorRef | .argument => true
  | _ => false

/-- The n consecutive cell ids starting at a. -/
def idsFrom (a : Nat) : Nat → List Nat
  | 0 => []
  | n + 1 => a :: idsFrom (a + 1) n

/-- Assign a run of consecutive slots starting at index i the given cell
ids, in order. -/
def setConsec (r : List (Option Nat)) (i : Nat) : List Nat → List (Option Nat)
  | [] => r
  | x :: xs => setConsec (r.set i (some x)) (i + 1) xs

/-! General list helpers. -/

/-- Taking one element past an updated index splits off the new value. -/
theorem take_set_succ {α : Type} :
    ∀ (r : List α) (i : Nat) (v : α), i < r.length →
      (r.set i v).take (i + 1) = r.take i ++ [v] := by
  intro r
  induction r with
  | nil => intro i v h; simp at h
  | cons x xs ih =>
      intro i v h
      cases i with
      | zero => simp
      | succ i =>
          simp only [List.set_cons_succ, List.take_succ_cons, List.cons_append,
            List.cons.injEq, true_and]
          exact ih i v (by simpa using h)

/-- idsFrom produces exactly n ids. -/
theorem idsFrom_length : ∀ (n a : Nat), (idsFrom a n).length = n := by
  intro n
  induction n with
  | zero => intro a; rfl
  | succ n ih => intro a; simp [idsFrom, ih]

/-- setConsec over a full tail rewrite. -/
theorem setConsec_eq :
    ∀ (ids : List Nat) (r : List (Option Nat)) (i : Nat),
      i + ids.length = r.length →
      setConsec r i ids = r.take i ++ ids.map some := by
  intro ids
  induction ids with
  | nil =>
      intro r i h
      simp only [List.length_nil, Nat.add_zero] at h
      simp [setConsec, h, List.take_length]
  | cons x xs ih =>
      intro r i h
      simp only [List.length_cons] at h
      have hi : i < r.length := by omega
      simp only [setConsec, List.map_cons]
      rw [ih (r.set i (some x)) (i + 1) (by simp; omega)]
      rw [take_set_succ r i (some x) hi]
      simp

/-- inputsOf over a one-element extension of the binding list. -/
theorem inputsOf_snoc (b : List BoundArg) (x : BoundArg) :
    inputsOf (b ++ [x]) = inputsOf b ++ inputsOfArg x := by
  simp [inputsOf]

/-! Static walk lemmas (dispatch classifier). -/

/-- Unfolding a successful static step. -/
theorem dStaticStep_some {p : DParam} {s s2 : SState}
    (h : dStaticStep p s = some s2) : sGuard p s = true ∧ s2 = sUpd p s := by
  unfold dStaticStep at h
  split at h
  · refine ⟨by assumption, ?_⟩
    injection h with h2
    exact h2.symm
  · exact absurd h (by simp)

/-- The static walk distributes over list append. -/
theorem dStaticWalk_append (l1 l2 : List DParam) (s : SState) :
    dStaticWalk (l1 ++ l2) s = (dStaticWalk l1 s).bind (dStaticWalk l2) := by
  induction l1 generalizing s with
  | nil => simp [dStaticWalk]
  | cons p ps ih =>
      simp only [List.cons_append, dStaticWalk]
      cases dStaticStep p s with
      | none => simp
      | some s1 => simp [ih]

/-- Once the attrs flag is set, every surviving walk keeps it set. -/
theorem dStaticWalk_hasAttrs :
    ∀ (ps : List DParam) (s s2 : SState), dStaticWalk ps s = some s2 →
      s.hasAttrs = true → s2.hasAttrs = true := by
  intro ps
  induction ps with
  | nil => intro s s2 h ha; simp [dStaticWalk] at h; rw [← h]; exact ha
  | cons p ps ih =>
      intro s s2 h ha
      simp only [dStaticWalk] at h
      cases hstep : dStaticStep p s with
      | none => rw [hstep] at h; cases h
      | some s1 =>
          rw [hstep] at h
          obtain ⟨hg, hupd⟩ := dStaticStep_some hstep
          subst hupd
          refine ih (sUpd p s) s2 h ?_
          cases p <;> simp_all [sGuard, sUpd]

/-- Once the chain flag is set, every surviving walk keeps it set. -/
theorem dStaticWalk_hasChain :
    ∀ (ps : List DParam) (s s2 : SState), dStaticWalk ps s = some s2 →
      s.hasChain = true → s2.hasChain = true := by
  intro ps
  induction ps with
  | nil => intro s s2 h ha; simp [dStaticWalk] at h; rw [← h]; exact ha
  | cons p ps ih =>
      intro s s2 h ha
      simp only [dStaticWalk] at h
      cases hstep : dStaticStep p s with
      | none => rw [hstep] at h; cases h
      | some s1 =>
          rw [hstep] at h
          obtain ⟨hg, hupd⟩ := dStaticStep_some hstep
          subst hupd
          refine ih (sUpd p s) s2 h ?_
          cases p <;> simp_all [sGuard, sUpd]

/-- Once the arg cursor is terminated, a surviving walk through parameters
that are not positional tensor inputs keeps it terminated (a positional
tensor input would reset it to 0 instead). -/
theorem dStaticWalk_argNone :
    ∀ (ps : List DParam) (s s2 : SState),
      (∀ x ∈ ps, isPosTensorKind x = false) → dStaticWalk ps s = some s2 →
      s.argIdx = none → s2.argIdx = none := by
  intro ps
  induction ps with
  | nil => intro s s2 hnt h ha; simp [dStaticWalk] at h; rw [← h]; exact ha
  | cons p ps ih =>
      intro s s2 hnt h ha
      simp only [dStaticWalk] at h
      cases hstep : dStaticStep p s with
      | none => rw [hstep] at h; cases h
      | some s1 =>
          rw [hstep] at h
          obtain ⟨hg, hupd⟩ := dStaticStep_some hstep
          subst hupd
          have hp := hnt p (List.mem_cons_self p ps)
          refine ih (sUpd p s) s2 (fun x hx => hnt x (List.mem_cons_of_mem p hx)) h ?_
          cases p <;> simp_all [sGuard, sUpd, isPosTensorKind]

/-- The static walk advances result_idx by exactly the number of
result-slot parameters. -/
theorem dStaticWalk_resultIdx :
    ∀ (ps : List DParam) (s s2 : SState), dStaticWalk ps s = some s2 →
      s2.resultIdx = s.resultIdx + countSlotParams ps := by
  intro ps
  induction ps with
  | nil =>
      intro s s2 h
      simp [dStaticWalk] at h
      rw [← h]; simp [countSlotParams]
  | cons p ps ih =>
      intro s s2 h
      simp only [dStaticWalk] at h
      cases hstep : dStaticStep p s with
      | none => rw [hstep] at h; cases h
      | some s1 =>
          rw [hstep] at h
          obtain ⟨hg, hupd⟩ := dStaticStep_some hstep
          subst hupd
          have := ih (sUpd p s) s2 h
          cases p <;> simp_all [sUpd, countSlotParams]
          all_goals omega

/-! Runtime walk lemmas (dispatch classifier). -/


/-! Runtime walk lemmas (dispatch classifier). -/

/-- One successful runtime step never loses, duplicates or reorders frame
entries: the entries bound so far followed by the entries still unconsumed
are invariant across the step. -/
theorem dRunStep_consumed {frame mds : List Nat} {nSlots : Nat} {p : DParam}
    {s : SState} {b : List BoundArg} {s1 : SState} {b1 : List BoundArg}
    (h : dRunStep frame mds nSlots p s b = some (s1, b1)) :
    inputsOf b1 ++ remaining frame s1 = inputsOf b ++ remaining frame s := by
  cases p <;> simp only [dRunStep] at h
  case attrs =>
    injection h with h2
    injection h2 with hs hb
    subst hs; subst hb
    simp [inputsOf_snoc, remaining, inputsOfArg]
  case resultMd =>
    cases hm : mds[s.mdIdx]? with
    | none => simp [hm] at h
    | some m =>
        simp only [hm] at h
        injection h with h2
        injection h2 with hs hb
        subst hs; subst hb
        simp [inputsOf_snoc, remaining, inputsOfArg]
  case resultSlot =>
    split at h
    · injection h with h2
      injection h2 with hs hb
      subst hs; subst hb
      simp [inputsOf_snoc, remaining, inputsOfArg]
    · cases h
  case outChain =>
    injection h with h2
    injection h2 with hs hb
    subst hs; subst hb
    simp [inputsOf_snoc, remaining, inputsOfArg]
  case location =>
    injection h with h2
    injection h2 with hs hb
    subst hs; subst hb
    simp [inputsOf_snoc, remaining, inputsOfArg]
  case hostCtx =>
    injection h with h2
    injection h2 with hs hb
    subst hs; subst hb
    simp [inputsOf_snoc, remaining, inputsOfArg]
  case deviceCtx =>
    injection h with h2
    injection h2 with hs hb
    subst hs; subst hb
    simp [inputsOf_snoc, remaining, inputsOfArg]
  case tensorPtr =>
    cases hidx : s.argIdx with
    | none => simp [hidx] at h
    | some k =>
        simp only [hidx] at h
        cases hk : frame[k]? with
        | none => simp [hk] at h
        | some a =>
            simp only [hk] at h
            injection h with h2
            injection h2 with hs hb
            subst hs; subst hb
            have hlt : k < frame.length := by
              by_contra hc
              rw [List.getElem?_eq_none (by omega)] at hk
              cases hk
            have ha : frame[k] = a := by
              rw [List.getElem?_eq_getElem hlt] at hk
              injection hk
            simp only [inputsOf_snoc, remaining, hidx, inputsOfArg]
            rw [List.drop_eq_getElem_cons hlt, ha]
            simp
  case tensorRef =>
    cases hidx : s.argIdx with
    | none => simp [hidx] at h
    | some k =>
        simp only [hidx] at h
        cases hk : frame[k]? with
        | none => simp [hk] at h
        | some a =>
            simp only [hk] at h
            injection h with h2
            injection h2 with hs hb
            subst hs; subst hb
            have hlt : k < frame.length := by
              by_contra hc
              rw [List.getElem?_eq_none (by omega)] at hk
              cases hk
            have ha : frame[k] = a := by
              rw [List.getElem?_eq_getElem hlt] at hk
              injection hk
            simp only [inputsOf_snoc, remaining, hidx, inputsOfArg]
            rw [List.drop_eq_getElem_cons hlt, ha]
            simp
  case argument =>
    cases hidx : s.argIdx with
    | none => simp [hidx] at h
    | some k =>
        simp only [hidx] at h
        cases hk : frame[k]? with
        | none => simp [hk] at h
        | some a =>
            simp only [hk] at h
            injection h with h2
            injection h2 with hs hb
            subst hs; subst hb
            have hlt : k < frame.length := by
              by_contra hc
              rw [List.getElem?_eq_none (by omega)] at hk
              cases hk
            have ha : frame[k] = a := by
              rw [List.getElem?_eq_getElem hlt] at hk
              injection hk
            simp only [inputsOf_snoc, remaining, hidx, inputsOfArg]
            rw [List.drop_eq_getElem_cons hlt, ha]
            simp
  case optionalArg =>
    cases hidx : s.argIdx with
    | none => simp [hidx] at h
    | some k =>
        simp only [hidx] at h
        split at h
        · rename_i hfull
          cases hk : frame[k]? with
          | none => simp [hk] at h
          | some a =>
              simp only [hk] at h
              injection h with h2
              injection h2 with hs hb
              subst hs; subst hb
              have hlt : k < frame.length := by omega
              have ha : frame[k] = a := by
                rw [List.getElem?_eq_getElem hlt] at hk
                injection hk
              simp only [inputsOf_snoc, remaining, hidx, inputsOfArg]
              rw [List.drop_eq_getElem_cons hlt, ha]
              have hend : frame.drop (k + 1) = [] := by
                rw [hfull]; exact List.drop_length frame
              simp [hend]
        · split at h
          · rename_i hone hend
            injection h with h2
            injection h2 with hs hb
            subst hs; subst hb
            simp only [inputsOf_snoc, remaining, hidx, inputsOfArg]
            rw [hend]
            simp [List.drop_length]
          · cases h
  case repeatedArgs =>
    cases hidx : s.argIdx with
    | none => simp [hidx] at h
    | some k =>
        simp only [hidx] at h
        split at h
        · injection h with h2
          injection h2 with hs hb
          subst hs; subst hb
          simp [inputsOf_snoc, remaining, hidx, inputsOfArg]
        · cases h

/-- The runtime walk preserves the consumption invariant. -/
theorem dRunWalk_consumed {frame mds : List Nat} {nSlots : Nat} :
    ∀ (ps : List DParam) (s : SState) (b : List BoundArg) (s2 : SState)
      (b2 : List BoundArg),
      dRunWalk frame mds nSlots ps s b = some (s2, b2) →
      inputsOf b2 ++ remaining frame s2 = inputsOf b ++ remaining frame s := by
  intro ps
  induction ps with
  | nil =>
      intro s b s2 b2 h
      simp only [dRunWalk] at h
      injection h with h2
      injection h2 with hs hb
      subst hs; subst hb
      rfl
  | cons p ps ih =>
      intro s b s2 b2 h
      simp only [dRunWalk] at h
      cases hstep : dRunStep frame mds nSlots p s b with
      | none => rw [hstep] at h; cases h
      | some sb =>
          obtain ⟨s1, b1⟩ := sb
          rw [hstep] at h
          rw [ih s1 b1 s2 b2 h]
          exact dRunStep_consumed hstep

/-- A successful runtime step advances result_idx by one exactly on a
result-slot parameter. -/
theorem dRunStep_resultIdx {frame mds : List Nat} {nSlots : Nat} {p : DParam}
    {s : SState} {b : List BoundArg} {s1 : SState} {b1 : List BoundArg}
    (h : dRunStep frame mds nSlots p s b = some (s1, b1)) :
    s1.resultIdx = s.resultIdx + countSlotParams [p] := by
  cases p <;> simp only [dRunStep] at h
  case attrs =>
    injection h with h2; injection h2 with hs hb; subst hs
    simp [countSlotParams]
  case resultMd =>
    cases hm : mds[s.mdIdx]? with
    | none => simp [hm] at h
    | some m =>
        simp only [hm] at h
        injection h with h2; injection h2 with hs hb; subst hs
        simp [countSlotParams]
  case resultSlot =>
    split at h
    · injection h with h2; injection h2 with hs hb; subst hs
      simp [countSlotParams]
    · cases h
  case outChain =>
    injection h with h2; injection h2 with hs hb; subst hs
    simp [countSlotParams]
  case location =>
    injection h with h2; injection h2 with hs hb; subst hs
    simp [countSlotParams]
  case hostCtx =>
    injection h with h2; injection h2 with hs hb; subst hs
    simp [countSlotParams]
  case deviceCtx =>
    injection h with h2; injection h2 with hs hb; subst hs
    simp [countSlotParams]
  case tensorPtr =>
    cases hidx : s.argIdx with
    | none => simp [hidx] at h
    | some k =>
        simp only [hidx] at h
        cases hk : frame[k]? with
        | none => simp [hk] at h
        | some a =>
            simp only [hk] at h
            injection h with h2; injection h2 with hs hb; subst hs
            simp [countSlotParams]
  case tensorRef =>
    cases hidx : s.argIdx with
    | none => simp [hidx] at h
    | some k =>
        simp only [hidx] at h
        cases hk : frame[k]? with
        | none => simp [hk] at h
        | some a =>
            simp only [hk] at h
            injection h with h2; injection h2 with hs hb; subst hs
            simp [countSlotParams]
  case argument =>
    cases hidx : s.argIdx with
    | none => simp [hidx] at h
    | some k =>
        simp only [hidx] at h
        cases hk : frame[k]? with
        | none => simp [hk] at h
        | some a =>
            simp only [hk] at h
            injection h with h2; injection h2 with hs hb; subst hs
            simp [countSlotParams]
  case optionalArg =>
    cases hidx : s.argIdx with
    | none => simp [hidx] at h
    | some k =>
        simp only [hidx] at h
        split at h
        · cases hk : frame[k]? with
          | none => simp [hk] at h
          | some a =>
              simp only [hk] at h
              injection h with h2; injection h2 with hs hb; subst hs
              simp [countSlotParams]
        · split at h
          · injection h with h2; injection h2 with hs hb; subst hs
            simp [countSlotParams]
          · cases h
  case repeatedArgs =>
    cases hidx : s.argIdx with
    | none => simp [hidx] at h
    | some k =>
        simp only [hidx] at h
        split at h
        · injection h with h2; injection h2 with hs hb; subst hs
          simp [countSlotParams]
        · cases h

/-- The runtime walk advances result_idx by exactly the number of
result-slot parameters. -/
theorem dRunWalk_resultIdx {frame mds : List Nat} {nSlots : Nat} :
    ∀ (ps : List DParam) (s : SState) (b : List BoundArg) (s2 : SState)
      (b2 : List BoundArg),
      dRunWalk frame mds nSlots ps s b = some (s2, b2) →
      s2.resultIdx = s.resultIdx + countSlotParams ps := by
  intro ps
  induction ps with
  | nil =>
      intro s b s2 b2 h
      simp only [dRunWalk] at h
      injection h with h2
      injection h2 with hs hb
      subst hs
      simp [countSlotParams]
  | cons p ps ih =>
      intro s b s2 b2 h
      simp only [dRunWalk] at h
      cases hstep : dRunStep frame mds nSlots p s b with
      | none => rw [hstep] at h; cases h
      | some sb =>
          obtain ⟨s1, b1⟩ := sb
          rw [hstep] at h
          have h1 := dRunStep_resultIdx hstep
          have h2 := ih s1 b1 s2 b2 h
          cases p <;> simp [countSlotParams] at h1 ⊢ <;> omega


/-! Runtime walk lemmas (metadata classifier). -/

/-- One successful metadata runtime step preserves the consumption
invariant. -/
theorem mRunStep_consumed {args : List Nat} {nRes : Nat} {p : MParam}
    {s : MSState} {b : List BoundArg} {s1 : MSState} {b1 : List BoundArg}
    (h : mRunStep args nRes p s b = some (s1, b1)) :
    inputsOf b1 ++ mRemaining args s1 = inputsOf b ++ mRemaining args s := by
  cases p <;> simp only [mRunStep] at h
  case tensorMdArg =>
    cases hidx : s.argIdx with
    | none => simp [hidx] at h
    | some k =>
        simp only [hidx] at h
        cases hk : args[k]? with
        | none => simp [hk] at h
        | some a =>
            simp only [hk] at h
            injection h with h2
            injection h2 with hs hb
            subst hs; subst hb
            have hlt : k < args.length := by
              by_contra hc
              rw [List.getElem?_eq_none (by omega)] at hk
              cases hk
            have ha : args[k] = a := by
              rw [List.getElem?_eq_getElem hlt] at hk
              injection hk
            simp only [inputsOf_snoc, mRemaining, hidx, inputsOfArg]
            rw [List.drop_eq_getElem_cons hlt, ha]
            simp
  case optionalArg =>
    cases hidx : s.argIdx with
    | none => simp [hidx] at h
    | some k =>
        simp only [hidx] at h
        split at h
        · rename_i hfull
          cases hk : args[k]? with
          | none => simp [hk] at h
          | some a =>
              simp only [hk] at h
              injection h with h2
              injection h2 with hs hb
              subst hs; subst hb
              have hlt : k < args.length := by omega
              have ha : args[k] = a := by
                rw [List.getElem?_eq_getElem hlt] at hk
                injection hk
              simp only [inputsOf_snoc, mRemaining, hidx, inputsOfArg]
              rw [List.drop_eq_getElem_cons hlt, ha]
              have hend : args.drop (k + 1) = [] := by
                rw [hfull]; exact List.drop_length args
              simp [hend]
        · split at h
          · rename_i hone hend
            injection h with h2
            injection h2 with hs hb
            subst hs; subst hb
            simp only [inputsOf_snoc, mRemaining, hidx, inputsOfArg]
            rw [hend]
            simp [List.drop_length]
          · cases h
  case variadicArg =>
    cases hidx : s.argIdx with
    | none => simp [hidx] at h
    | some k =>
        simp only [hidx] at h
        split at h
        · injection h with h2
          injection h2 with hs hb
          subst hs; subst hb
          simp [inputsOf_snoc, mRemaining, hidx, inputsOfArg]
        · cases h
  case attrs =>
    injection h with h2
    injection h2 with hs hb
    subst hs; subst hb
    simp [inputsOf_snoc, mRemaining, inputsOfArg]
  case resultMd =>
    split at h
    · injection h with h2
      injection h2 with hs hb
      subst hs; subst hb
      simp [inputsOf_snoc, mRemaining, inputsOfArg]
    · cases h
  case location =>
    injection h with h2
    injection h2 with hs hb
    subst hs; subst hb
    simp [inputsOf_snoc, mRemaining, inputsOfArg]

/-- The metadata runtime walk preserves the consumption invariant. -/
theorem mRunWalk_consumed {args : List Nat} {nRes : Nat} :
    ∀ (ps : List MParam) (s : MSState) (b : List BoundArg) (s2 : MSState)
      (b2 : List BoundArg),
      mRunWalk args nRes ps s b = some (s2, b2) →
      inputsOf b2 ++ mRemaining args s2 = inputsOf b ++ mRemaining args s := by
  intro ps
  induction ps with
  | nil =>
      intro s b s2 b2 h
      simp only [mRunWalk] at h
      injection h with h2
      injection h2 with hs hb
      subst hs; subst hb
      rfl
  | cons p ps ih =>
      intro s b s2 b2 h
      simp only [mRunWalk] at h
      cases hstep : mRunStep args nRes p s b with
      | none => rw [hstep] at h; cases h
      | some sb =>
          obtain ⟨s1, b1⟩ := sb
          rw [hstep] at h
          rw [ih s1 b1 s2 b2 h]
          exact mRunStep_consumed hstep

/-- Walking k positional metadata arguments from cursor j succeeds when the
frame has enough entries, binding entries j to j+k-1 in order. -/
theorem mRunWalk_tensorMds_ok {args : List Nat} {nRes : Nat} :
    ∀ (k j : Nat) (r : Nat) (fa : Bool) (b : List BoundArg),
      j + k ≤ args.length →
      mRunWalk args nRes (List.replicate k .tensorMdArg) ⟨some j, r, fa⟩ b =
        some (⟨some (j + k), r, fa⟩,
              b ++ ((args.drop j).take k).map .tensor) := by
  intro k
  induction k with
  | zero =>
      intro j r fa b hj
      simp [mRunWalk]
  | succ k ih =>
      intro j r fa b hj
      have hlt : j < args.length := by omega
      rw [List.replicate_succ]
      simp only [mRunWalk, mRunStep, List.getElem?_eq_getElem hlt]
      rw [ih (j + 1) r fa _ (by omega)]
      rw [List.drop_eq_getElem_cons hlt]
      simp only [List.take_succ_cons, List.map_cons]
      rw [show j + 1 + k = j + (k + 1) from by omega]
      simp

/-- Walking k positional metadata arguments aborts when the frame is too
short. -/
theorem mRunWalk_tensorMds_short {args : List Nat} {nRes : Nat} :
    ∀ (k j : Nat) (r : Nat) (fa : Bool) (b : List BoundArg),
      j ≤ args.length → args.length < j + k →
      mRunWalk args nRes (List.replicate k .tensorMdArg) ⟨some j, r, fa⟩ b =
        none := by
  intro k
  induction k with
  | zero =>
      intro j r fa b hj hshort
      omega
  | succ k ih =>
      intro j r fa b hj hshort
      rw [List.replicate_succ]
      by_cases hlt : j < args.length
      · simp only [mRunWalk, mRunStep, List.getElem?_eq_getElem hlt]
        exact ih (j + 1) r fa _ (by omega) (by omega)
      · simp [mRunWalk, mRunStep, List.getElem?_eq_none (by omega : args.length ≤ j)]



/-- Walking k positional tensor arguments from cursor j succeeds when the
frame has enough entries, binding frame entries j to j+k-1 in order. -/
theorem dRunWalk_tensorRefs_ok {frame mds : List Nat} {nSlots : Nat} :
    ∀ (k j : Nat) (r m : Nat) (fa fc : Bool) (b : List BoundArg),
      j + k ≤ frame.length →
      dRunWalk frame mds nSlots (List.replicate k .tensorRef)
        ⟨some j, r, m, fa, fc⟩ b =
        some (⟨some (j + k), r, m, fa, fc⟩,
              b ++ ((frame.drop j).take k).map .tensor) := by
  intro k
  induction k with
  | zero =>
      intro j r m fa fc b hj
      simp [dRunWalk]
  | succ k ih =>
      intro j r m fa fc b hj
      have hlt : j < frame.length := by omega
      rw [List.replicate_succ]
      simp only [dRunWalk, dRunStep, List.getElem?_eq_getElem hlt]
      rw [ih (j + 1) r m fa fc _ (by omega)]
      rw [List.drop_eq_getElem_cons hlt]
      simp only [List.take_succ_cons, List.map_cons]
      rw [show j + 1 + k = j + (k + 1) from by omega]
      simp

/-- Walking k positional tensor arguments aborts when the frame is too
short. -/
theorem dRunWalk_tensorRefs_short {frame mds : List Nat} {nSlots : Nat} :
    ∀ (k j : Nat) (r m : Nat) (fa fc : Bool) (b : List BoundArg),
      j ≤ frame.length → frame.length < j + k →
      dRunWalk frame mds nSlots (List.replicate k .tensorRef)
        ⟨some j, r, m, fa, fc⟩ b = none := by
  intro k
  induction k with
  | zero =>
      intro j r m fa fc b hj hshort
      omega
  | succ k ih =>
      intro j r m fa fc b hj hshort
      rw [List.replicate_succ]
      by_cases hlt : j < frame.length
      · simp only [dRunWalk, dRunStep, List.getElem?_eq_getElem hlt]
        exact ih (j + 1) r m fa fc (b ++ [.tensor frame[j]]) (by omega) (by omega)
      · have hje : j = frame.length := by omega
        simp [dRunWalk, dRunStep, List.getElem?_eq_none (by omega : frame.length ≤ j)]




/-! Tuple emplacement lemmas. -/

/-- Characterization of the dispatch EmplaceTupleResult loop: each element
is wrapped into a fresh consecutive cell and stored in its own slot. -/
theorem emplaceTupleResult_eq :
    ∀ (vs : List Val) (h : Host) (r : List (Option Nat)) (i : Nat),
      i + vs.length = r.length →
      emplaceTupleResult h r i vs =
        some ({ h with cells := h.cells ++ vs.map CellState.concrete },
              setConsec r i (idsFrom h.cells.length vs.length)) := by
  intro vs
  induction vs with
  | nil =>
      intro h r i hlen
      simp [emplaceTupleResult, idsFrom, setConsec]
  | cons v vs ih =>
      intro h r i hlen
      simp only [List.length_cons] at hlen
      have hi : i < r.length := by omega
      simp only [emplaceTupleResult, Host.makeConcrete, setSlot, hi, if_pos,
        idsFrom, setConsec]
      rw [ih _ _ (i + 1) (by simp; omega)]
      simp [List.append_assoc]

/-- Characterization of the metadata EmplaceTupleResult loop. -/
theorem mEmplaceTupleResult_eq :
    ∀ (ms : List Nat) (r : List (Option Nat)) (i : Nat),
      i + ms.length = r.length →
      mEmplaceTupleResult r i ms = some (setConsec r i ms) := by
  intro ms
  induction ms with
  | nil => intro r i hlen; simp [mEmplaceTupleResult, setConsec]
  | cons m ms ih =>
      intro r i hlen
      simp only [List.length_cons] at hlen
      have hi : i < r.length := by omega
      simp only [mEmplaceTupleResult, setSlot, hi, if_pos, setConsec]
      exact ih _ (i + 1) (by simp; omega)

/-- Every return shape passes its static checks at result_idx 0 with no
chain parameter. -/
theorem retStaticOk_zero : ∀ (rt : DReturnTy), retStaticOk rt 0 false = true := by
  intro rt
  induction rt <;> simp [retStaticOk, *]

/-- At least one result-slot parameter makes the count positive. -/
theorem countSlotParams_pos :
    ∀ (ps : List DParam), DParam.resultSlot ∈ ps → 1 ≤ countSlotParams ps := by
  intro ps
  induction ps with
  | nil => intro h; cases h
  | cons p ps ih =>
      intro h
      cases p <;> simp_all [countSlotParams]



/-- The dispatch runtime walk distributes over list append. -/
theorem dRunWalk_append {frame mds : List Nat} {nSlots : Nat} :
    ∀ (l1 l2 : List DParam) (s : SState) (b : List BoundArg),
      dRunWalk frame mds nSlots (l1 ++ l2) s b =
        (dRunWalk frame mds nSlots l1 s b).bind
          (fun x => dRunWalk frame mds nSlots l2 x.1 x.2) := by
  intro l1
  induction l1 with
  | nil => intro l2 s b; simp [dRunWalk]
  | cons p ps ih =>
      intro l2 s b
      simp only [List.cons_append, dRunWalk]
      cases dRunStep frame mds nSlots p s b with
      | none => simp
      | some sb => simp [ih]

/-- The metadata runtime walk distributes over list append. -/
theorem mRunWalk_append {args : List Nat} {nRes : Nat} :
    ∀ (l1 l2 : List MParam) (s : MSState) (b : List BoundArg),
      mRunWalk args nRes (l1 ++ l2) s b =
        (mRunWalk args nRes l1 s b).bind
          (fun x => mRunWalk args nRes l2 x.1 x.2) := by
  intro l1
  induction l1 with
  | nil => intro l2 s b; simp [mRunWalk]
  | cons p ps ih =>
      intro l2 s b
      simp only [List.cons_append, mRunWalk]
      cases mRunStep args nRes p s b with
      | none => simp
      | some sb => simp [ih]

/-! Claim theorems. -/

/-- Claim C1: when a dispatch function returns a failed Expected value
against n at least 1 declared result slots, the result adapter constructs
exactly one Error cell stamped with the call Location, stores the same cell
id (identity, not content) into every one of the n slots, and leaves the
chain untouched; the continuation list and the error sink are untouched as
well. -/
theorem c1_fallible_failure_fanout (loc : Location) (rIdx n : Nat) (h : Host)
    (chain : Option Nat) (msg : String) (hn : 1 ≤ n) :
    handleReturn loc rIdx h (List.replicate n none) chain (.rerr msg) =
      some ({ h with cells := h.cells ++ [CellState.error msg (some loc)] },
            List.replicate n (some h.cells.length), chain) := by
  have hne : ¬ ((List.replicate n (none : Option Nat)).length = 0) := by
    simp; omega
  simp [handleReturn, Host.emitErrorAsync, fillAllSlots, hne, List.map_replicate]
  omega

/-- Witness for C1 at a concrete failing call with three result slots. -/
theorem c1_witness :
    handleReturn ⟨7⟩ 0 ⟨[], [], []⟩ (List.replicate 3 none) none
        (DRet.rerr "boom") =
      some (⟨[CellState.error "boom" (some ⟨7⟩)], [], []⟩,
            List.replicate 3 (some 0), none) := by
  have := c1_fallible_failure_fanout ⟨7⟩ 0 3 ⟨[], [], []⟩ none "boom" (by decide)
  simpa using this

/-- Counterexample to claim C2: the tuple overload of HandleReturn never
checks result_idx, so a dispatch function that declares a result-slot
parameter and also returns a tuple is accepted at build time and at run
time (the claim says such a shape is rejected); the tuple element overwrites
the slot bound to the result-slot parameter. -/
theorem c2_counterexample :
    dispatchStaticOk [.resultSlot] (.ttuple 1) = true ∧
    dispatchInvoke [.resultSlot] (.rtuple [7]) [] [] 1 ⟨0⟩ ⟨[], [], []⟩ =
      some ([.slotArg 0], ⟨[.concrete 7], [], []⟩, [some 0], none) := by
  exact ⟨by decide, by decide⟩

/-- Claim C2 (amended): a tuple return of n values requires exactly n
result slots (assert, otherwise abort); the slots 0 to n-1 are filled with
the tuple elements in declared order, each independently wrapped into a
fresh consecutive resolved cell; result-slot parameters are not rejected.
Both binders behave this way, the metadata binder assigning the plain
metadata records instead of wrapping. -/
theorem c2_tuple_fill (loc : Location) (rIdx n nRes : Nat) (h : Host)
    (chain : Option Nat) (vs : List Val) (ms : List Nat) :
    (n = vs.length →
      handleReturn loc rIdx h (List.replicate n none) chain (.rtuple vs) =
        some ({ h with cells := h.cells ++ vs.map CellState.concrete },
              (idsFrom h.cells.length n).map some, chain)) ∧
    (n ≠ vs.length →
      handleReturn loc rIdx h (List.replicate n none) chain (.rtuple vs) =
        none) ∧
    (nRes = ms.length →
      mHandleReturn loc h (List.replicate nRes none) (.rtuple ms) =
        some (h, ms.map some, none)) ∧
    (nRes ≠ ms.length →
      mHandleReturn loc h (List.replicate nRes none) (.rtuple ms) = none) := by
  refine ⟨?_, ?_, ?_, ?_⟩
  · intro hlen
    subst hlen
    simp only [handleReturn, List.length_replicate, if_pos rfl]
    rw [emplaceTupleResult_eq vs h _ 0 (by simp)]
    rw [setConsec_eq _ _ 0 (by simp [idsFrom_length])]
    simp
  · intro hlen
    simp only [handleReturn, List.length_replicate]
    rw [if_neg hlen]
  · intro hlen
    subst hlen
    simp only [mHandleReturn, List.length_replicate, if_pos rfl]
    rw [mEmplaceTupleResult_eq ms _ 0 (by simp)]
    rw [setConsec_eq _ _ 0 (by simp)]
    simp
  · intro hlen
    simp only [mHandleReturn, List.length_replicate]
    rw [if_neg hlen]

/-- Witness for the amended C2 at a concrete 3-tuple against 3 slots. -/
theorem c2_witness :
    handleReturn ⟨1⟩ 0 ⟨[], [], []⟩ (List.replicate 3 none) none
        (DRet.rtuple [4, 5, 6]) =
      some (⟨[.concrete 4, .concrete 5, .concrete 6], [], []⟩,
            [some 0, some 1, some 2], none) ∧
    mHandleReturn ⟨1⟩ ⟨[], [], []⟩ (List.replicate 3 none)
        (MRet.rtuple [4, 5, 6]) =
      some (⟨[], [], []⟩, [some 4, some 5, some 6], none) := by
  have h1 := (c2_tuple_fill ⟨1⟩ 0 3 3 ⟨[], [], []⟩ none [4, 5, 6] [4, 5, 6]).1
    (by decide)
  have h2 := (c2_tuple_fill ⟨1⟩ 0 3 3 ⟨[], [], []⟩ none [4, 5, 6] [4, 5, 6]).2.2.1
    (by decide)
  exact ⟨by simpa using h1, by simpa using h2⟩



/-- Claim C3: a dispatch function whose sole result is a type-erased async
handle has the handle passed through into the single result slot without
rewrapping (no new cell, same cell id), with a continuation registered; when
the handle later resolves to an error, the continuation stamps the call
Location on the error only if it has no Location yet and reports the error
to the host error sink exactly once. -/
theorem c3_rcref_passthrough (loc : Location) (rIdx t : Nat) (h : Host)
    (chain : Option Nat) (msg : String) (el : Option Location)
    (hpend : h.cells[t]? = some CellState.pending)
    (hno : ∀ c ∈ h.conts, c.1 ≠ t) :
    handleReturn loc rIdx h (List.replicate 1 none) chain (.rrcref t) =
      some ({ h with conts := h.conts ++ [(t, loc)] }, [some t], chain) ∧
    (let h3 := Host.resolveError { h with conts := h.conts ++ [(t, loc)] }
        t msg el
     h3.cells[t]? =
        some (CellState.error msg (if el = none then some loc else el)) ∧
     h3.sink = h.sink ++ [(msg, if el = none then some loc else el)] ∧
     h3.conts = h.conts) := by
  have hlt : t < h.cells.length := by
    by_contra hc
    rw [List.getElem?_eq_none (by omega)] at hpend
    cases hpend
  constructor
  · simp [handleReturn, Host.andThen, hpend, setSlot]
  · have hfilter : h.conts.filter (fun c => c.1 == t) = [] := by
      rw [List.filter_eq_nil_iff]
      intro c hc
      simp [hno c hc]
    have hfilter2 : h.conts.filter (fun c => c.1 != t) = h.conts := by
      rw [List.filter_eq_self]
      intro c hc
      simp [hno c hc]
    simp only [Host.resolveError, hpend, List.filter_append, hfilter,
      hfilter2]
    have hself : List.filter (fun c => c.1 == t) [(t, loc)] = [(t, loc)] := by
      simp
    have hself2 : List.filter (fun c => c.1 != t) [(t, loc)] = [] := by
      simp
    rw [hself, hself2]
    simp only [List.nil_append, List.append_nil, List.foldl_cons,
      List.foldl_nil]
    have hget : (h.cells.set t (CellState.error msg el))[t]? =
        some (CellState.error msg el) := List.getElem?_set_self hlt
    simp only [runErrCont, hget]
    cases el with
    | none =>
        simp only [List.set_set]
        simp [List.getElem?_set_self hlt]
    | some l =>
        simp only [List.set_set]
        simp [List.getElem?_set_self hlt]

/-- Witness for C3: a pending handle, passed through, later resolving to an
unstamped error, gets the call Location and one sink report. -/
theorem c3_witness :
    handleReturn ⟨5⟩ 0 ⟨[CellState.pending], [], []⟩ (List.replicate 1 none)
        none (DRet.rrcref 0) =
      some (⟨[CellState.pending], [(0, ⟨5⟩)], []⟩, [some 0], none) ∧
    (Host.resolveError ⟨[CellState.pending], [(0, ⟨5⟩)], []⟩ 0 "er" none).cells[0]? =
      some (CellState.error "er" (some ⟨5⟩)) := by
  have := c3_rcref_passthrough ⟨5⟩ 0 0 ⟨[CellState.pending], [], []⟩ none "er"
    none (by decide) (by intro c hc; cases hc)
  refine ⟨by simpa using this.1, ?_⟩
  have h2 := this.2.1
  simpa using h2

/-- Counterexample to claim C4: the metadata single-value overload of
HandleReturn (op_utils.h 136 to 142) has no result_idx check, and the
TensorMetadata result specialization carries no static_assert, so a
metadata function declaring a result-slot parameter and also returning a
single TensorMetadata compiles (the static walk accepts it) and runs, the
returned value overwriting the parameter-bound record; the claim says a
single-value return requires that no result-slot parameter was declared. -/
theorem c4_counterexample :
    mStaticWalk [.resultMd] mInitS = some ⟨some 0, 1, false⟩ ∧
    metadataInvoke [.resultMd] (.rmd 9) [] 1 ⟨0⟩ ⟨[], [], []⟩ =
      some ([.slotArg 0], ⟨[], [], []⟩, [some 9], none) := by
  exact ⟨by decide, by decide⟩

/-- Claim C4 (amended): a single-value return requires exactly one result
slot (assert, otherwise abort) in both binders; the dispatch binder wraps
the value into one newly created resolved cell placed in slot 0 and rejects
any declared result-slot parameter at build time (static_assert
result_idx == 0), while the metadata binder assigns the plain record to
slot 0 and does not reject a declared result-slot parameter (the returned
value overwrites the parameter-bound record). -/
theorem c4_single_concrete (loc : Location) (rIdx n nRes : Nat) (h : Host)
    (chain : Option Nat) (v : Val) (m : Nat) (ps : List DParam)
    (hmem : DParam.resultSlot ∈ ps) :
    (n = 1 →
      handleReturn loc rIdx h (List.replicate n none) chain (.rval v) =
        some ({ h with cells := h.cells ++ [CellState.concrete v] },
              [some h.cells.length], chain)) ∧
    (n ≠ 1 →
      handleReturn loc rIdx h (List.replicate n none) chain (.rval v) =
        none) ∧
    dispatchStaticOk ps .tval = false ∧
    (nRes = 1 →
      mHandleReturn loc h (List.replicate nRes none) (.rmd m) =
        some (h, [some m], none)) ∧
    (nRes ≠ 1 →
      mHandleReturn loc h (List.replicate nRes none) (.rmd m) = none) := by
  refine ⟨?_, ?_, ?_, ?_, ?_⟩
  · intro hn
    subst hn
    simp [handleReturn, Host.makeConcrete, setSlot, List.replicate]
  · intro hn
    simp only [handleReturn, List.length_replicate]
    rw [if_neg hn]
  · unfold dispatchStaticOk
    cases hw : dStaticWalk ps initS with
    | none => rfl
    | some s2 =>
        have hidx := dStaticWalk_resultIdx ps initS s2 hw
        have hpos := countSlotParams_pos ps hmem
        simp only [initS] at hidx
        simp only [retStaticOk]
        simp
        omega
  · intro hn
    subst hn
    simp [mHandleReturn, setSlot, List.replicate]
  · intro hn
    simp only [mHandleReturn, List.length_replicate]
    rw [if_neg hn]

/-- Witness for the amended C4 at concrete single-value returns. -/
theorem c4_witness :
    handleReturn ⟨2⟩ 0 ⟨[], [], []⟩ (List.replicate 1 none) none
        (DRet.rval 42) =
      some (⟨[CellState.concrete 42], [], []⟩, [some 0], none) ∧
    dispatchStaticOk [DParam.resultSlot] .tval = false ∧
    mHandleReturn ⟨2⟩ ⟨[], [], []⟩ (List.replicate 1 none) (MRet.rmd 8) =
      some (⟨[], [], []⟩, [some 8], none) := by
  have := c4_single_concrete ⟨2⟩ 0 1 1 ⟨[], [], []⟩ none 42 8
    [DParam.resultSlot] (by decide)
  exact ⟨by simpa using this.1 rfl, this.2.2.1, by simpa using this.2.2.2.1 rfl⟩

/-- Claim C5: a chain return value is assigned to the call chain output
(subject to the assert that all result slots are accounted for by
result-slot parameters), and a shape that declares a chain parameter and
also returns a chain fails its build-time checks. -/
theorem c5_chain_return (loc : Location) (rIdx : Nat) (h : Host)
    (results : List (Option Nat)) (chain : Option Nat) (c : Nat)
    (ps : List DParam) (hmem : DParam.outChain ∈ ps) :
    handleReturn loc rIdx h results chain (.rchain c) =
      (if rIdx = results.length then some (h, results, some c) else none) ∧
    dispatchStaticOk ps .tchain = false := by
  constructor
  · simp [handleReturn]
  · obtain ⟨l1, l2, rfl⟩ := List.append_of_mem hmem
    unfold dispatchStaticOk
    rw [dStaticWalk_append]
    cases hw : dStaticWalk l1 initS with
    | none => rfl
    | some s1 =>
        simp only [dStaticWalk, Option.some_bind]
        cases hstep : dStaticStep .outChain s1 with
        | none => rfl
        | some s1b =>
            simp only [Option.some_bind]
            obtain ⟨hg, hupd⟩ := dStaticStep_some hstep
            subst hupd
            cases hw2 : dStaticWalk l2 (sUpd .outChain s1) with
            | none => rfl
            | some s2 =>
                have hchain := dStaticWalk_hasChain l2 _ s2 hw2
                  (by simp [sUpd])
                simp [retStaticOk, hchain]

/-- Witness for C5 at a concrete chain return. -/
theorem c5_witness :
    handleReturn ⟨3⟩ 0 ⟨[], [], []⟩ [] none (DRet.rchain 9) =
      some (⟨[], [], []⟩, [], some 9) ∧
    dispatchStaticOk [DParam.outChain] .tchain = false := by
  have := c5_chain_return ⟨3⟩ 0 ⟨[], [], []⟩ [] none 9 [DParam.outChain]
    (by decide)
  exact ⟨by simpa using this.1, this.2⟩



/-- Claim C6: with an Optional input parameter as the last input-consuming
parameter after k positional tensor inputs (maximum frame length k+1), a
frame of length k binds the Optional parameter to absent, a full frame of
length k+1 binds it to the final frame entry, and a frame two or more
entries shorter than the maximum aborts the walk (assertion failure, not a
recoverable error).  Both binders behave this way. -/
theorem c6_optional_binding (k : Nat) (frame mds : List Nat) (nSlots : Nat)
    (args : List Nat) (nRes : Nat) :
    (frame.length = k →
      dRunWalk frame mds nSlots
          (List.replicate k .tensorRef ++ [.optionalArg]) initS [] =
        some (⟨none, 0, 0, false, false⟩,
              frame.map .tensor ++ [.optTensor none])) ∧
    (frame.length = k + 1 →
      dRunWalk frame mds nSlots
          (List.replicate k .tensorRef ++ [.optionalArg]) initS [] =
        some (⟨none, 0, 0, false, false⟩,
              (frame.take k).map .tensor ++ [.optTensor frame.getLast?])) ∧
    (frame.length + 2 ≤ k + 1 →
      dRunWalk frame mds nSlots
          (List.replicate k .tensorRef ++ [.optionalArg]) initS [] = none) ∧
    (args.length = k →
      mRunWalk args nRes
          (List.replicate k .tensorMdArg ++ [.optionalArg]) mInitS [] =
        some (⟨none, 0, false⟩, args.map .tensor ++ [.optTensor none])) ∧
    (args.length = k + 1 →
      mRunWalk args nRes
          (List.replicate k .tensorMdArg ++ [.optionalArg]) mInitS [] =
        some (⟨none, 0, false⟩,
              (args.take k).map .tensor ++ [.optTensor args.getLast?])) ∧
    (args.length + 2 ≤ k + 1 →
      mRunWalk args nRes
          (List.replicate k .tensorMdArg ++ [.optionalArg]) mInitS [] =
        none) := by
  refine ⟨?_, ?_, ?_, ?_, ?_, ?_⟩
  · intro hlen
    subst hlen
    rw [dRunWalk_append]
    have hpre := @dRunWalk_tensorRefs_ok frame mds nSlots frame.length 0 0 0
      false false [] (by omega)
    rw [show initS = ⟨some 0, 0, 0, false, false⟩ from rfl, hpre]
    simp only [Option.some_bind, Nat.zero_add, List.nil_append, dRunWalk,
      dRunStep]
    rw [if_neg (by omega : ¬ (frame.length + 1 = frame.length))]
    simp [List.take_length]
  · intro hlen
    rw [dRunWalk_append]
    have hpre := @dRunWalk_tensorRefs_ok frame mds nSlots k 0 0 0
      false false [] (by omega)
    rw [show initS = ⟨some 0, 0, 0, false, false⟩ from rfl, hpre]
    simp only [Option.some_bind, Nat.zero_add, List.nil_append, dRunWalk,
      dRunStep]
    rw [if_pos (by omega : k + 1 = frame.length)]
    have hk : k < frame.length := by omega
    rw [List.getElem?_eq_getElem hk]
    have hlast : frame.getLast? = some frame[k] := by
      rw [List.getLast?_eq_getElem?]
      have he : frame.length - 1 = k := by omega
      rw [he, List.getElem?_eq_getElem hk]
    rw [hlast]
    simp [List.drop_zero]
  · intro hlen
    rw [dRunWalk_append]
    have hpre := @dRunWalk_tensorRefs_short frame mds nSlots k 0 0 0
      false false [] (by omega) (by omega)
    rw [show initS = ⟨some 0, 0, 0, false, false⟩ from rfl, hpre]
    rfl
  · intro hlen
    subst hlen
    rw [mRunWalk_append]
    have hpre := @mRunWalk_tensorMds_ok args nRes args.length 0 0
      false [] (by omega)
    rw [show mInitS = ⟨some 0, 0, false⟩ from rfl, hpre]
    simp only [Option.some_bind, Nat.zero_add, List.nil_append, mRunWalk,
      mRunStep]
    rw [if_neg (by omega : ¬ (args.length + 1 = args.length))]
    simp [List.take_length]
  · intro hlen
    rw [mRunWalk_append]
    have hpre := @mRunWalk_tensorMds_ok args nRes k 0 0
      false [] (by omega)
    rw [show mInitS = ⟨some 0, 0, false⟩ from rfl, hpre]
    simp only [Option.some_bind, Nat.zero_add, List.nil_append, mRunWalk,
      mRunStep]
    rw [if_pos (by omega : k + 1 = args.length)]
    have hk : k < args.length := by omega
    rw [List.getElem?_eq_getElem hk]
    have hlast : args.getLast? = some args[k] := by
      rw [List.getLast?_eq_getElem?]
      have he : args.length - 1 = k := by omega
      rw [he, List.getElem?_eq_getElem hk]
    rw [hlast]
    simp [List.drop_zero]
  · intro hlen
    rw [mRunWalk_append]
    have hpre := @mRunWalk_tensorMds_short args nRes k 0 0
      false [] (by omega) (by omega)
    rw [show mInitS = ⟨some 0, 0, false⟩ from rfl, hpre]
    rfl

/-- Witness for C6 with one positional input: frames of length 1, 2 and 0. -/
theorem c6_witness :
    dRunWalk [10] [] 0 [.tensorRef, .optionalArg] initS [] =
      some (⟨none, 0, 0, false, false⟩,
            [.tensor 10, .optTensor none]) ∧
    dRunWalk [10, 11] [] 0 [.tensorRef, .optionalArg] initS [] =
      some (⟨none, 0, 0, false, false⟩,
            [.tensor 10, .optTensor (some 11)]) ∧
    dRunWalk [] [] 0 [.tensorRef, .tensorRef, .optionalArg] initS [] =
      none := by
  have h1 := (c6_optional_binding 1 [10] [] 0 [] 0).1 (by decide)
  have h2 := (c6_optional_binding 1 [10, 11] [] 0 [] 0).2.1 (by decide)
  have h3 := (c6_optional_binding 2 [] [] 0 [] 0).2.2.1 (by decide)
  refine ⟨by simpa using h1, by simpa using h2, by simpa using h3⟩



/-- Claim C7: a Variadic input parameter after k positional tensor inputs,
against a frame with K entries beyond that prefix, is bound to exactly those
K trailing entries in their original order, consumes every remaining frame
entry, and terminates input consumption (the arg cursor becomes the
sentinel).  Both binders behave this way. -/
theorem c7_variadic_binding (k bigK : Nat) (frame mds : List Nat)
    (nSlots : Nat) (args : List Nat) (nRes : Nat) :
    (frame.length = k + bigK →
      dRunWalk frame mds nSlots
          (List.replicate k .tensorRef ++ [.repeatedArgs]) initS [] =
        some (⟨none, 0, 0, false, false⟩,
              (frame.take k).map .tensor ++ [.repeated (frame.drop k)]) ∧
      (frame.drop k).length = bigK) ∧
    (args.length = k + bigK →
      mRunWalk args nRes
          (List.replicate k .tensorMdArg ++ [.variadicArg]) mInitS [] =
        some (⟨none, 0, false⟩,
              (args.take k).map .tensor ++ [.repeated (args.drop k)]) ∧
      (args.drop k).length = bigK) := by
  constructor
  · intro hlen
    constructor
    · rw [dRunWalk_append]
      have hpre := @dRunWalk_tensorRefs_ok frame mds nSlots k 0 0 0
        false false [] (by omega)
      rw [show initS = ⟨some 0, 0, 0, false, false⟩ from rfl, hpre]
      simp only [Option.some_bind, Nat.zero_add, List.nil_append, dRunWalk,
        dRunStep]
      rw [if_pos (by omega : k ≤ frame.length)]
      simp [List.drop_zero]
    · simp [List.length_drop]
      omega
  · intro hlen
    constructor
    · rw [mRunWalk_append]
      have hpre := @mRunWalk_tensorMds_ok args nRes k 0 0 false [] (by omega)
      rw [show mInitS = ⟨some 0, 0, false⟩ from rfl, hpre]
      simp only [Option.some_bind, Nat.zero_add, List.nil_append, mRunWalk,
        mRunStep]
      rw [if_pos (by omega : k ≤ args.length)]
      simp [List.drop_zero]
    · simp [List.length_drop]
      omega

/-- Witness for C7: one positional input, three trailing entries. -/
theorem c7_witness :
    dRunWalk [10, 11, 12, 13] [] 0 [.tensorRef, .repeatedArgs] initS [] =
      some (⟨none, 0, 0, false, false⟩,
            [.tensor 10, .repeated [11, 12, 13]]) ∧
    mRunWalk [10, 11, 12, 13] 0 [.tensorMdArg, .variadicArg] mInitS [] =
      some (⟨none, 0, false⟩, [.tensor 10, .repeated [11, 12, 13]]) := by
  have h1 := ((c7_variadic_binding 1 3 [10, 11, 12, 13] [] 0 [10, 11, 12, 13]
    0).1 (by decide)).1
  have h2 := ((c7_variadic_binding 1 3 [10, 11, 12, 13] [] 0 [10, 11, 12, 13]
    0).2 (by decide)).1
  exact ⟨by simpa using h1, by simpa using h2⟩


/-- Counterexample to claim C8: a dispatch function returning void with
zero declared result slots and no result-slot or chain parameter at all is
accepted by the build-time checks and completes at run time, although the
claim says a void return is valid only when at least one result-slot or
chain parameter was declared. -/
theorem c8_counterexample :
    dispatchStaticOk [] .tvoid = true ∧
    dispatchInvoke [] .rvoid [] [] 0 ⟨0⟩ ⟨[], [], []⟩ =
      some ([], ⟨[], [], []⟩, [], none) := by
  exact ⟨by decide, by decide⟩

/-- Claim C8 (amended): a void return is accepted exactly when result_idx
equals the declared slot count, asserted before invoking the underlying
function; result_idx after the walk equals the number of result-slot
parameters, so with at least one declared slot at least one result-slot
parameter is required (a chain parameter does not contribute), and with
zero slots a function with no result-slot or chain parameter is accepted. -/
theorem c8_void_accounting (loc : Location) (rIdx : Nat) (h : Host)
    (results : List (Option Nat)) (chain : Option Nat)
    (frame mds : List Nat) (nSlots : Nat) (ps : List DParam) (s2 : SState)
    (b2 : List BoundArg)
    (hw : dRunWalk frame mds nSlots ps initS [] = some (s2, b2)) :
    handleReturn loc rIdx h results chain .rvoid =
      (if rIdx = results.length then some (h, results, chain) else none) ∧
    s2.resultIdx = countSlotParams ps := by
  constructor
  · simp [handleReturn]
  · have := dRunWalk_resultIdx ps initS [] s2 b2 hw
    simpa [initS] using this

/-- Witness for the amended C8: one result-slot parameter against two
declared slots fails the void-return accounting assert. -/
theorem c8_witness :
    handleReturn ⟨0⟩ 1 ⟨[], [], []⟩ [none, none] none DRet.rvoid = none ∧
    (⟨some 0, 1, 0, false, false⟩ : SState).resultIdx =
      countSlotParams [DParam.resultSlot] := by
  have := c8_void_accounting ⟨0⟩ 1 ⟨[], [], []⟩ [none, none] none [] [] 2
    [DParam.resultSlot] ⟨some 0, 1, 0, false, false⟩ [.slotArg 0] (by decide)
  exact ⟨by simpa using this.1, this.2⟩

/-- Counterexample to claim C10: the dispatch base case asserts only input
and metadata consumption, not result-slot accounting; a shape with one
result-slot parameter, two declared slots and a 2-tuple return passes the
base case with result_idx 1 different from the slot count 2 and even
completes successfully, the tuple overwriting the parameter-bound slot. -/
theorem c10_counterexample :
    dispatchInvoke [.resultSlot] (.rtuple [5, 6]) [] [] 2 ⟨0⟩ ⟨[], [], []⟩ =
      some ([.slotArg 0], ⟨[.concrete 5, .concrete 6], [], []⟩,
            [some 0, some 1], none) ∧
    (dRunWalk [] [] 2 [.resultSlot] initS []).map (fun x => x.1.resultIdx) =
      some 1 ∧
    (1 : Nat) ≠ 2 := by
  exact ⟨by decide, by decide, by decide⟩

/-- Claim C10 (amended): for every declaration whose walk reaches the base
case with its asserts passing, the frame entries bound to input-consuming
parameters are exactly the input frame, in order, with no entry bound twice
(a Variadic or Optional parameter absorbing consumption up to exactly the
end); this holds in both binders.  Result-slot accounting is not part of
the dispatch base case; it is checked by the return helpers. -/
theorem c10_consumption (frame mds : List Nat) (nSlots : Nat)
    (ps : List DParam) (s2 : SState) (b2 : List BoundArg)
    (args : List Nat) (nRes : Nat) (mps : List MParam) (t2 : MSState)
    (d2 : List BoundArg) :
    (dRunWalk frame mds nSlots ps initS [] = some (s2, b2) →
      dBaseOk frame mds s2 = true → inputsOf b2 = frame) ∧
    (mRunWalk args nRes mps mInitS [] = some (t2, d2) →
      mBaseOk args nRes t2 = true → inputsOf d2 = args) := by
  constructor
  · intro hw hbase
    have hc := dRunWalk_consumed ps initS [] s2 b2 hw
    simp only [inputsOf, List.flatMap_nil, List.nil_append, remaining, initS,
      List.drop_zero] at hc
    simp only [dBaseOk, Bool.and_eq_true, Bool.or_eq_true, beq_iff_eq] at hbase
    obtain ⟨hidx, hmd⟩ := hbase
    cases hidx with
    | inl hsome =>
        rw [hsome] at hc
        simpa [remaining, List.drop_length, inputsOf] using hc
    | inr hnone =>
        have : s2.argIdx = none := by
          cases hn : s2.argIdx with
          | none => rfl
          | some v => rw [hn] at hnone; simp at hnone
        rw [this] at hc
        simpa [remaining, inputsOf] using hc
  · intro hw hbase
    have hc := mRunWalk_consumed mps mInitS [] t2 d2 hw
    simp only [inputsOf, List.flatMap_nil, List.nil_append, mRemaining,
      mInitS, List.drop_zero] at hc
    simp only [mBaseOk, Bool.and_eq_true, Bool.or_eq_true, beq_iff_eq] at hbase
    obtain ⟨hidx, hres⟩ := hbase
    cases hidx with
    | inl hsome =>
        rw [hsome] at hc
        simpa [mRemaining, List.drop_length, inputsOf] using hc
    | inr hnone =>
        have : t2.argIdx = none := by
          cases hn : t2.argIdx with
          | none => rfl
          | some v => rw [hn] at hnone; simp at hnone
        rw [this] at hc
        simpa [mRemaining, inputsOf] using hc

/-- Witness for the amended C10 at a concrete mixed declaration. -/
theorem c10_witness :
    inputsOf [.tensor 10, .attrsArg, .repeated [11, 12]] = [10, 11, 12] := by
  have := (c10_consumption [10, 11, 12] [] 0
    [.tensorRef, .attrs, .repeatedArgs]
    ⟨none, 0, 0, true, false⟩ [.tensor 10, .attrsArg, .repeated [11, 12]]
    [] 0 [] ⟨some 0, 0, false⟩ []).1 (by decide) (by decide)
  simpa using this


/-- Generic rejection scheme: if parameter y establishes a state property
that every surviving static walk preserves and that falsifies the guard of
a later parameter x, then any list placing x after y fails the build-time
checks. -/
theorem staticOk_false_of_inv (rt : DReturnTy) (l1 l2 l3 : List DParam)
    (y x : DParam) (P : SState → Prop)
    (hstep : ∀ s s2, dStaticStep y s = some s2 → P s2)
    (hpres : ∀ (s s2 : SState), dStaticWalk l2 s = some s2 → P s → P s2)
    (hguard : ∀ s, P s → sGuard x s = false) :
    dispatchStaticOk (l1 ++ y :: l2 ++ x :: l3) rt = false := by
  unfold dispatchStaticOk
  rw [dStaticWalk_append, dStaticWalk_append]
  cases hw1 : dStaticWalk l1 initS with
  | none => rfl
  | some s1 =>
      simp only [Option.some_bind, dStaticWalk]
      cases hs : dStaticStep y s1 with
      | none => rfl
      | some s2 =>
          simp only [Option.some_bind]
          cases hw2 : dStaticWalk l2 s2 with
          | none => rfl
          | some s3 =>
              simp only [Option.some_bind, dStaticWalk]
              have hg := hguard s3 (hpres s2 s3 hw2 (hstep s1 s2 hs))
              simp [dStaticStep, hg]

/-- Counterexample to claim C9: the HostContext and DeviceContext
specializations carry no at-most-once static_assert, so a dispatch function
declaring two host-context parameters (or two device-context parameters) is
accepted at build time and runs; moreover a positional tensor input after an
Optional input passes the build-time checks (its specialization has no
arg_idx static_assert) and only aborts at run time.  The claim says both are
rejected at build time. -/
theorem c9_counterexample :
    dispatchStaticOk [.hostCtx, .hostCtx] .tvoid = true ∧
    dispatchStaticOk [.deviceCtx, .deviceCtx] .tvoid = true ∧
    dispatchInvoke [.hostCtx, .hostCtx] .rvoid [] [] 0 ⟨0⟩ ⟨[], [], []⟩ =
      some ([.hostArg, .hostArg], ⟨[], [], []⟩, [], none) ∧
    dispatchStaticOk [.optionalArg, .tensorRef] .tvoid = true ∧
    dRunWalk [9] [] 0 [.optionalArg, .tensorRef] initS [] = none := by
  exact ⟨by decide, by decide, by decide, by decide, by decide⟩

/-- Claim C9 (amended): declaring more than one AttributeSet parameter or
more than one CompletionSignal parameter is rejected at build time, as are:
an input after the AttributeSet, and any input, attribute or metadata
parameter after a result-slot parameter.  Repeating or mixing Optional and
Variadic inputs is rejected at build time when only parameters that are not
positional tensor inputs stand between them; a positional tensor input
after an Optional or Variadic resets the compile-time cursor (the int
arithmetic turns the -1 sentinel into 0), so shapes such as
optional-tensor-optional pass the build-time checks, while at run time any
input parameter reached with an exhausted cursor aborts unconditionally
(in the metadata binder a positional input after Optional or Variadic is
caught at build time).  Context parameters carry no at-most-once
restriction and may repeat. -/
theorem c9_param_checks (rt : DReturnTy) (l1 l2 l3 : List DParam)
    (p q : DParam) (frame mds : List Nat) (nSlots : Nat) (s : SState)
    (b : List BoundArg) (ms : MSState) :
    (dispatchStaticOk (l1 ++ .attrs :: l2 ++ .attrs :: l3) rt = false) ∧
    (dispatchStaticOk (l1 ++ .outChain :: l2 ++ .outChain :: l3) rt =
      false) ∧
    (dispatchStaticOk [.hostCtx, .hostCtx, .deviceCtx, .deviceCtx] rt =
      true) ∧
    ((p = .optionalArg ∨ p = .repeatedArgs) →
      (q = .optionalArg ∨ q = .repeatedArgs) →
      (∀ x ∈ l2, isPosTensorKind x = false) →
      dispatchStaticOk (l1 ++ q :: l2 ++ p :: l3) rt = false) ∧
    (dispatchStaticOk [.optionalArg, .tensorRef, .optionalArg] rt = true) ∧
    (isInputKind p = true → s.argIdx = none →
      dRunStep frame mds nSlots p s b = none) ∧
    (ms.argIdx = none → mStaticStep .tensorMdArg ms = none) ∧
    (isInputKind p = true →
      dispatchStaticOk (l1 ++ .attrs :: l2 ++ p :: l3) rt = false) ∧
    ((isInputKind p = true ∨ p = .attrs ∨ p = .resultMd) →
      dispatchStaticOk (l1 ++ .resultSlot :: l2 ++ p :: l3) rt = false) := by
  refine ⟨?_, ?_, ?_, ?_, ?_, ?_, ?_, ?_, ?_⟩
  · refine staticOk_false_of_inv rt l1 l2 l3 _ _
      (fun s => s.hasAttrs = true) ?_ (dStaticWalk_hasAttrs l2) ?_
    · intro s s2 hs
      obtain ⟨hg, hupd⟩ := dStaticStep_some hs
      subst hupd
      simp [sUpd]
    · intro s hp
      simp [sGuard, hp]
  · refine staticOk_false_of_inv rt l1 l2 l3 _ _
      (fun s => s.hasChain = true) ?_ (dStaticWalk_hasChain l2) ?_
    · intro s s2 hs
      obtain ⟨hg, hupd⟩ := dStaticStep_some hs
      subst hupd
      simp [sUpd]
    · intro s hp
      simp [sGuard, hp]
  · simp [dispatchStaticOk, dStaticWalk, dStaticStep, sGuard, sUpd, initS,
      retStaticOk_zero]
  · intro hpk hq hl2
    have hstep : ∀ s s2, dStaticStep q s = some s2 → s2.argIdx = none := by
      intro s s2 hs
      obtain ⟨hg, hupd⟩ := dStaticStep_some hs
      subst hupd
      cases hq with
      | inl h => subst h; simp [sUpd]
      | inr h => subst h; simp [sUpd]
    have hguard : ∀ s, s.argIdx = none → sGuard p s = false := by
      intro s hpn
      cases hpk with
      | inl h => subst h; simp [sGuard, hpn]
      | inr h => subst h; simp [sGuard, hpn]
    exact staticOk_false_of_inv rt l1 l2 l3 q p _ hstep
      (fun s s2 => dStaticWalk_argNone l2 s s2 hl2) hguard
  · simp [dispatchStaticOk, dStaticWalk, dStaticStep, sGuard, sUpd, initS,
      retStaticOk_zero]
  · intro hin hnone
    cases hp : p <;> simp_all [isInputKind] <;> simp [dRunStep, hnone]
  · intro hnone
    simp [mStaticStep, mGuard, hnone]
  · intro hin
    have hguard : ∀ s, s.hasAttrs = true → sGuard p s = false := by
      intro s hp2
      cases p <;> simp_all [isInputKind, sGuard]
    refine staticOk_false_of_inv rt l1 l2 l3 _ _
      (fun s => s.hasAttrs = true) ?_ (dStaticWalk_hasAttrs l2) hguard
    intro s s2 hs
    obtain ⟨hg, hupd⟩ := dStaticStep_some hs
    subst hupd
    simp [sUpd]
  · intro hp
    have hstep : ∀ s s2, dStaticStep .resultSlot s = some s2 →
        1 ≤ s2.resultIdx := by
      intro s s2 hs
      obtain ⟨hg, hupd⟩ := dStaticStep_some hs
      subst hupd
      simp [sUpd]
    have hpres : ∀ (s s2 : SState),
        dStaticWalk l2 s = some s2 → 1 ≤ s.resultIdx → 1 ≤ s2.resultIdx := by
      intro s s2 hw hle
      have := dStaticWalk_resultIdx l2 s s2 hw
      omega
    have hguard : ∀ s, 1 ≤ s.resultIdx → sGuard p s = false := by
      intro s hps
      cases hp with
      | inl h => cases p <;> simp_all [isInputKind, sGuard] <;> omega
      | inr h =>
          cases h with
          | inl h2 => subst h2; simp [sGuard]; omega
          | inr h2 => subst h2; simp [sGuard]; omega
    exact staticOk_false_of_inv rt l1 l2 l3 _ _ _ hstep hpres hguard

/-- Witness for the amended C9 at concrete declarations. -/
theorem c9_witness :
    dispatchStaticOk [.attrs, .attrs] .tvoid = false ∧
    dispatchStaticOk [.outChain, .outChain] .tvoid = false ∧
    dispatchStaticOk [.hostCtx, .hostCtx, .deviceCtx, .deviceCtx] .tvoid =
      true ∧
    dispatchStaticOk [.optionalArg, .location, .repeatedArgs] .tvoid =
      false ∧
    dispatchStaticOk [.optionalArg, .tensorRef, .optionalArg] .tvoid =
      true ∧
    dRunStep [9] [] 0 .tensorRef ⟨none, 0, 0, false, false⟩ [] = none ∧
    mStaticStep .tensorMdArg ⟨none, 0, false⟩ = none ∧
    dispatchStaticOk [.attrs, .tensorRef] .tvoid = false ∧
    dispatchStaticOk [.resultSlot, .attrs] .tvoid = false := by
  have h := c9_param_checks .tvoid [] [.location] [] .repeatedArgs
    .optionalArg [9] [] 0 ⟨none, 0, 0, false, false⟩ [] ⟨none, 0, false⟩
  have h2 := c9_param_checks .tvoid [] [] [] .tensorRef .optionalArg
    [9] [] 0 ⟨none, 0, 0, false, false⟩ [] ⟨none, 0, false⟩
  have h3 := c9_param_checks .tvoid [] [] [] .attrs .optionalArg
    [9] [] 0 ⟨none, 0, 0, false, false⟩ [] ⟨none, 0, false⟩
  refine ⟨by simpa using h2.1, by simpa using h2.2.1, h2.2.2.1, ?_,
    h2.2.2.2.2.1, ?_, ?_, ?_, ?_⟩
  · simpa using h.2.2.2.1 (Or.inr rfl) (Or.inl rfl) (by decide)
  · exact h2.2.2.2.2.2.1 (by decide) rfl
  · exact h2.2.2.2.2.2.2.1 rfl
  · simpa using h2.2.2.2.2.2.2.2.1 (by decide)
  · simpa using h3.2.2.2.2.2.2.2.2 (Or.inr (Or.inl rfl))

end OpUtils
